import Mathlib

/-!
Verification of the Markdown ↔ Notion-block converter of
src/helpers/markdown.ts (functions markdownToBlocks, blocksToMarkdown,
parseRichText, richTextToMarkdown, extractPlainText and their helper
creators).  Strings are modelled as List Char; the uninterpreted
JavaScript string is the list of its characters.  Recursions that are
not structural in the source (the tokenizer jumping past a link, the
block parser consuming a fenced code run) are given a Nat fuel that the
top-level wrappers instantiate with the input length; every step of the
source loop consumes at least one character / line, so that fuel is
exact and all definitions compute by kernel reduction.
-/

/-- Backtick character (written via its code point). -/
def backquote : Char := Char.ofNat 96

/-- Characters treated as whitespace by the JavaScript regexes and trim
(ASCII part of \s). -/
def isSpaceChar (c : Char) : Bool :=
  c = ' ' || c = '\t' || c = '\n' || c = '\r' || c = Char.ofNat 11 || c = Char.ofNat 12

/-- JavaScript String.trim on both ends, restricted to the modelled
whitespace set. -/
def trimL (l : List Char) : List Char :=
  ((l.dropWhile isSpaceChar).reverse.dropWhile isSpaceChar).reverse

/-- Annotation set of a rich text span (field order of the source
interface; color is always "default" in this module and omitted). -/
structure Annotations where
  bold : Bool
  italic : Bool
  strikethrough : Bool
  underline : Bool
  code : Bool
deriving DecidableEq, Repr

/-- One rich text span.  The source nests content and link under a
text object; the model flattens text.content and text.link into
direct fields. -/
structure RichText where
  content : List Char
  link : Option (List Char)
  annotations : Annotations
deriving DecidableEq, Repr

/-- Helper creator createRichText of the source: a span without link,
with the given four annotation flags (underline always false). -/
def createRichText (content : List Char) (b it cd st : Bool) : RichText :=
  ⟨content, none, ⟨b, it, st, false, cd⟩⟩

/-- The span pushed for a well-formed link: content is the link text,
link holds the url, annotations are the currently active flags. -/
def linkRichText (content url : List Char) (b it cd st : Bool) : RichText :=
  ⟨content, some url, ⟨b, it, st, false, cd⟩⟩

/-- Pending-buffer flush of parseRichText: push the buffered text as a
span with the active annotations; an empty buffer pushes nothing. -/
def flush (current : List Char) (b it cd st : Bool) (acc : List RichText) : List RichText :=
  if current = [] then acc else acc ++ [createRichText current b it cd st]

/-- Link lookahead of parseRichText on the text after an opening
bracket: the first close bracket must be immediately followed by an
open parenthesis, and a close parenthesis must occur later; on success
returns the link text, the url, and the text after the close
parenthesis (the source computes the same three slices with indexOf). -/
def linkSplit (rest : List Char) : Option (List Char × List Char × List Char) :=
  (rest.findIdx? (fun c => c = ']')).bind fun j =>
    if (rest.drop (j + 1)).head? = some '(' then
      ((rest.drop (j + 2)).findIdx? (fun c => c = ')')).bind fun k =>
        some (rest.take j, (rest.drop (j + 2)).take k, (rest.drop (j + 2)).drop (k + 1))
    else none

/-- The scan loop of parseRichText.  Arguments: fuel, remaining text,
pending buffer, the four active annotation flags (bold, italic, code,
strikethrough), spans emitted so far.  The backtick marker is tested in
the catch-all case by an equality guard, which is equivalent to the
source's else-if chain because the marker head characters are
pairwise distinct. -/
def parseLoopF : Nat → List Char → List Char → Bool → Bool → Bool → Bool → List RichText → List RichText
  | _, [], current, b, it, cd, st, acc => flush current b it cd st acc
  | 0, _ :: _, current, b, it, cd, st, acc => flush current b it cd st acc
  | fuel + 1, '[' :: rest, current, b, it, cd, st, acc =>
    match linkSplit rest with
    | some (lt, url, rem) =>
      parseLoopF fuel rem [] b it cd st
        (flush current b it cd st acc ++ [linkRichText lt url b it cd st])
    | none => parseLoopF fuel rest (current ++ ['[']) b it cd st acc
  | fuel + 1, '*' :: '*' :: rest, current, b, it, cd, st, acc =>
    parseLoopF fuel rest [] (!b) it cd st (flush current b it cd st acc)
  | fuel + 1, '*' :: rest, current, b, it, cd, st, acc =>
    parseLoopF fuel rest [] b (!it) cd st (flush current b it cd st acc)
  | fuel + 1, '~' :: '~' :: rest, current, b, it, cd, st, acc =>
    parseLoopF fuel rest [] b it cd (!st) (flush current b it cd st acc)
  | fuel + 1, c :: rest, current, b, it, cd, st, acc =>
    if c = backquote then
      parseLoopF fuel rest [] b it (!cd) st (flush current b it cd st acc)
    else
      parseLoopF fuel rest (current ++ [c]) b it cd st acc

/-- parseRichText of the source: run the scan; if it emitted no span,
fall back to a single default span holding the whole input. -/
def parseRichText (text : List Char) : List RichText :=
  let r := parseLoopF text.length text [] false false false false []
  if r = [] then [createRichText text false false false false] else r

/-- extractPlainText of the source: concatenate the span contents. -/
def extractPlainText (richText : List RichText) : List Char :=
  (richText.map (fun rt => rt.content)).flatten

/-- One span of richTextToMarkdown: wrap the content following the
source's reassignment sequence (bold, then italic, then code, then
strikethrough, then the link wrapper). -/
def renderSpan (rt : RichText) : List Char :=
  let t0 := rt.content
  let t1 := if rt.annotations.bold then '*' :: '*' :: t0 ++ ['*', '*'] else t0
  let t2 := if rt.annotations.italic then '*' :: t1 ++ ['*'] else t1
  let t3 := if rt.annotations.code then backquote :: t2 ++ [backquote] else t2
  let t4 := if rt.annotations.strikethrough then '~' :: '~' :: t3 ++ ['~', '~'] else t3
  match rt.link with
  | some url => '[' :: t4 ++ ']' :: '(' :: url ++ [')']
  | none => t4

/-- richTextToMarkdown of the source: map the spans and concatenate. -/
def richTextToMarkdown (richText : List RichText) : List Char :=
  (richText.map renderSpan).flatten

/-- Notion block model: one constructor per type tag handled by the
source, each non-divider constructor carrying its rich_text payload
(code also its language); the unsupported constructor stands for every
block whose type tag is outside the handled set, carrying the tag. -/
inductive Block where
  | heading1 (rich : List RichText)
  | heading2 (rich : List RichText)
  | heading3 (rich : List RichText)
  | paragraph (rich : List RichText)
  | bulletedListItem (rich : List RichText)
  | numberedListItem (rich : List RichText)
  | code (rich : List RichText) (language : List Char)
  | quote (rich : List RichText)
  | divider
  | unsupported (tag : List Char)
deriving DecidableEq, Repr

/-- Helper creators of the source (createHeading at levels 1 to 3,
createParagraph, createBulletedListItem, createNumberedListItem,
createQuote): each tokenizes its text argument. -/
def createHeading1 (text : List Char) : Block := Block.heading1 (parseRichText text)

/-- createHeading at level 2. -/
def createHeading2 (text : List Char) : Block := Block.heading2 (parseRichText text)

/-- createHeading at level 3. -/
def createHeading3 (text : List Char) : Block := Block.heading3 (parseRichText text)

/-- createParagraph of the source. -/
def createParagraph (text : List Char) : Block := Block.paragraph (parseRichText text)

/-- createBulletedListItem of the source (text already has the bullet
sliced off by the caller). -/
def createBulletedListItem (text : List Char) : Block :=
  Block.bulletedListItem (parseRichText text)

/-- createNumberedListItem of the source. -/
def createNumberedListItem (text : List Char) : Block :=
  Block.numberedListItem (parseRichText text)

/-- createQuote of the source. -/
def createQuote (text : List Char) : Block := Block.quote (parseRichText text)

/-- createCodeBlock of the source: raw text as one untokenized default
span; an empty language falls back to "plain text". -/
def createCodeBlock (code : List Char) (language : List Char) : Block :=
  Block.code [createRichText code false false false false]
    (if language = [] then "plain text".data else language)

/-- Match of the bulleted-list regex (dash or star then one whitespace)
returning the text after the two sliced characters. -/
def matchBulleted : List Char → Option (List Char)
  | c :: w :: rest =>
    if (c = '-' || c = '*') && isSpaceChar w then some rest else none
  | _ => none

/-- Match of the numbered-list regex (one or more digits, a dot, one
whitespace) returning the text after the matched prefix. -/
def matchNumbered (l : List Char) : Option (List Char) :=
  let ds := l.takeWhile Char.isDigit
  if ds = [] then none
  else
    match l.drop ds.length with
    | '.' :: w :: rest => if isSpaceChar w then some rest else none
    | _ => none

/-- isListItem of the source: the line matches the bulleted or the
numbered pattern. -/
def isListItem (line : List Char) : Bool :=
  (matchBulleted line).isSome || (matchNumbered line).isSome

/-- Empty after trim, the source's skip test for a line. -/
def isBlank (line : List Char) : Bool :=
  line.all isSpaceChar

/-- Match of the divider regex: at least three characters, all of them
dash or star. -/
def isDivider (line : List Char) : Bool :=
  decide (3 ≤ line.length) && line.all (fun c => c = '-' || c = '*')

/-- Three backticks, the fence prefix. -/
def fenceChars : List Char := [backquote, backquote, backquote]

/-- Lines joined with a newline character (Array.prototype.join of the
source). -/
def joinLines : List (List Char) → List Char
  | [] => []
  | [l] => l
  | l :: rest => l ++ '\n' :: joinLines rest

/-- String.prototype.split on the newline character: an empty input is
one empty line, and a trailing newline yields a trailing empty line. -/
def splitLines : List Char → List (List Char)
  | [] => [[]]
  | '\n' :: rest => [] :: splitLines rest
  | c :: rest =>
    match splitLines rest with
    | [] => [[c]]
    | l :: ls => (c :: l) :: ls

/-- List classification state of markdownToBlocks (the stored kind is
only ever tested for being set). -/
inductive ListKind where
  | bulleted
  | numbered
deriving DecidableEq, Repr

/-- The line loop of markdownToBlocks.  Arguments: fuel, remaining
lines, the pending list-item buffer, the current list type.  Before a
line is dispatched the pending list is flushed when the line is not a
list item; blank lines are skipped; then the source's else-if chain:
heading 1-3, fenced code run (consuming lines up to and including the
next fence line), bulleted item, numbered item, quote, divider,
paragraph.  At end of input the pending list is flushed. -/
def mdLoopF : Nat → List (List Char) → List Block → Option ListKind → List Block
  | _, [], currentList, _ => currentList
  | 0, _ :: _, currentList, _ => currentList
  | fuel + 1, line :: rest, currentList, listTy =>
    let doFlush := listTy.isSome && !(isListItem line)
    let flushed := if doFlush then currentList else []
    let cur := if doFlush then ([] : List Block) else currentList
    let ty := if doFlush then (none : Option ListKind) else listTy
    flushed ++
      (if isBlank line then mdLoopF fuel rest cur ty
       else if List.isPrefixOf ['#', ' '] line then
         createHeading1 (line.drop 2) :: mdLoopF fuel rest cur ty
       else if List.isPrefixOf ['#', '#', ' '] line then
         createHeading2 (line.drop 3) :: mdLoopF fuel rest cur ty
       else if List.isPrefixOf ['#', '#', '#', ' '] line then
         createHeading3 (line.drop 4) :: mdLoopF fuel rest cur ty
       else if List.isPrefixOf fenceChars line then
         let language := trimL (line.drop 3)
         let codeLines := rest.takeWhile (fun l => !(List.isPrefixOf fenceChars l))
         let rest2 := (rest.dropWhile (fun l => !(List.isPrefixOf fenceChars l))).drop 1
         createCodeBlock (joinLines codeLines) language :: mdLoopF fuel rest2 cur ty
       else
         match matchBulleted line with
         | some t => mdLoopF fuel rest (cur ++ [createBulletedListItem t]) (some ListKind.bulleted)
         | none =>
           match matchNumbered line with
           | some t => mdLoopF fuel rest (cur ++ [createNumberedListItem t]) (some ListKind.numbered)
           | none =>
             if List.isPrefixOf ['>', ' '] line then
               createQuote (line.drop 2) :: mdLoopF fuel rest cur ty
             else if isDivider line then
               Block.divider :: mdLoopF fuel rest cur ty
             else
               createParagraph line :: mdLoopF fuel rest cur ty)

/-- markdownToBlocks of the source. -/
def markdownToBlocks (markdown : List Char) : List Block :=
  mdLoopF (splitLines markdown).length (splitLines markdown) [] none

/-- The lines pushed for one block by blocksToMarkdown: one line per
supported block, except code (three lines) and unsupported (none). -/
def blockLines : Block → List (List Char)
  | Block.heading1 r => [['#', ' '] ++ richTextToMarkdown r]
  | Block.heading2 r => [['#', '#', ' '] ++ richTextToMarkdown r]
  | Block.heading3 r => [['#', '#', '#', ' '] ++ richTextToMarkdown r]
  | Block.paragraph r => [richTextToMarkdown r]
  | Block.bulletedListItem r => [['-', ' '] ++ richTextToMarkdown r]
  | Block.numberedListItem r => [['1', '.', ' '] ++ richTextToMarkdown r]
  | Block.code r language => [fenceChars ++ language, richTextToMarkdown r, fenceChars]
  | Block.quote r => [['>', ' '] ++ richTextToMarkdown r]
  | Block.divider => [['-', '-', '-']]
  | Block.unsupported _ => []

/-- blocksToMarkdown of the source: push the lines of each block in
order and join with newlines. -/
def blocksToMarkdown (blocks : List Block) : List Char :=
  joinLines (blocks.map blockLines).flatten

/-- Stateless per-line reference semantics of the line loop: each line
contributes its blocks immediately (list items are not buffered), the
fenced code case consumes the fenced lines.  Proven equal to mdLoopF
below: the buffering of markdownToBlocks never reorders blocks. -/
def linesBlocksF : Nat → List (List Char) → List Block
  | _, [] => []
  | 0, _ :: _ => []
  | fuel + 1, line :: rest =>
    if isBlank line then linesBlocksF fuel rest
    else if List.isPrefixOf ['#', ' '] line then
      createHeading1 (line.drop 2) :: linesBlocksF fuel rest
    else if List.isPrefixOf ['#', '#', ' '] line then
      createHeading2 (line.drop 3) :: linesBlocksF fuel rest
    else if List.isPrefixOf ['#', '#', '#', ' '] line then
      createHeading3 (line.drop 4) :: linesBlocksF fuel rest
    else if List.isPrefixOf fenceChars line then
      createCodeBlock (joinLines (rest.takeWhile (fun l => !(List.isPrefixOf fenceChars l))))
          (trimL (line.drop 3)) ::
        linesBlocksF fuel ((rest.dropWhile (fun l => !(List.isPrefixOf fenceChars l))).drop 1)
    else
      match matchBulleted line with
      | some t => createBulletedListItem t :: linesBlocksF fuel rest
      | none =>
        match matchNumbered line with
        | some t => createNumberedListItem t :: linesBlocksF fuel rest
        | none =>
          if List.isPrefixOf ['>', ' '] line then
            createQuote (line.drop 2) :: linesBlocksF fuel rest
          else if isDivider line then
            Block.divider :: linesBlocksF fuel rest
          else
            createParagraph line :: linesBlocksF fuel rest

/-- Reference semantics with exact fuel. -/
def linesToBlocks (lines : List (List Char)) : List Block :=
  linesBlocksF lines.length lines

/-- The single block of a line that is neither blank nor a fence
opener, following the dispatch order of the source. -/
def lineBlockOf (line : List Char) : Block :=
  if List.isPrefixOf ['#', ' '] line then createHeading1 (line.drop 2)
  else if List.isPrefixOf ['#', '#', ' '] line then createHeading2 (line.drop 3)
  else if List.isPrefixOf ['#', '#', '#', ' '] line then createHeading3 (line.drop 4)
  else
    match matchBulleted line with
    | some t => createBulletedListItem t
    | none =>
      match matchNumbered line with
      | some t => createNumberedListItem t
      | none =>
        if List.isPrefixOf ['>', ' '] line then createQuote (line.drop 2)
        else if isDivider line then Block.divider
        else createParagraph line

/-- Blocks contributed by one non-fence line: none when blank,
otherwise its dispatched block. -/
def lineOut (line : List Char) : List Block :=
  if isBlank line then [] else [lineBlockOf line]

/-- The list-item block of a line matching a list pattern. -/
def listItemBlock (line : List Char) : Block :=
  match matchBulleted line with
  | some t => createBulletedListItem t
  | none =>
    match matchNumbered line with
    | some t => createNumberedListItem t
    | none => createParagraph line

/-- Modelled from the spec: the plain text of a source line, i.e. the
line with the recognized syntax markers removed — double star, lone
star, backtick and double tilde dropped, and each well-formed link
pattern replaced by its bracketed text (its brackets, parentheses and
url dropped); every other character kept.  This is the specification
side of the tokenizer's plain-text invariant; it never flushes,
toggles, or falls back. -/
def stripMarkersF : Nat → List Char → List Char
  | _, [] => []
  | 0, _ :: _ => []
  | fuel + 1, '[' :: rest =>
    match linkSplit rest with
    | some (lt, _, rem) => lt ++ stripMarkersF fuel rem
    | none => '[' :: stripMarkersF fuel rest
  | fuel + 1, '*' :: '*' :: rest => stripMarkersF fuel rest
  | fuel + 1, '*' :: rest => stripMarkersF fuel rest
  | fuel + 1, '~' :: '~' :: rest => stripMarkersF fuel rest
  | fuel + 1, c :: rest =>
    if c = backquote then stripMarkersF fuel rest
    else c :: stripMarkersF fuel rest

/-- Marker stripping with exact fuel. -/
def stripMarkers (line : List Char) : List Char :=
  stripMarkersF line.length line

/-- A text in which the scan recognizes no marker: no star, no
backtick, no double tilde, and every open bracket fails the link
lookahead. -/
def markerFreeB : List Char → Bool
  | [] => true
  | '[' :: rest => (linkSplit rest).isNone && markerFreeB rest
  | '*' :: _ => false
  | '~' :: '~' :: _ => false
  | c :: rest =>
    if c = backquote then false
    else markerFreeB rest

/-- Conditional symmetric wrapping of a text with a marker. -/
def wrapIf (b : Bool) (marker t : List Char) : List Char :=
  if b then marker ++ t ++ marker else t

/-- Conditional link wrapping of a text. -/
def wrapLink (link : Option (List Char)) (t : List Char) : List Char :=
  match link with
  | some url => '[' :: t ++ ']' :: '(' :: url ++ [')']
  | none => t

/-- Modelled from the spec (claim C1 wording): span rendering with
bold outermost, then italic, then code, then strikethrough innermost,
link wrapper outermost of all. -/
def claimedRenderSpan (rt : RichText) : List Char :=
  wrapLink rt.link
    (wrapIf rt.annotations.bold ['*', '*']
      (wrapIf rt.annotations.italic ['*']
        (wrapIf rt.annotations.code [backquote]
          (wrapIf rt.annotations.strikethrough ['~', '~'] rt.content))))

/-- Span rendering as the code actually nests the wrappers: bold
innermost, then italic, then code, then strikethrough outermost of the
annotations, the link wrapper outermost of all. -/
def renderSpanAmended (rt : RichText) : List Char :=
  wrapLink rt.link
    (wrapIf rt.annotations.strikethrough ['~', '~']
      (wrapIf rt.annotations.code [backquote]
        (wrapIf rt.annotations.italic ['*']
          (wrapIf rt.annotations.bold ['*', '*'] rt.content))))

/-- Normal form of an input line under one round trip: list lines get
the literal rendered prefixes, every other line is unchanged. -/
def normalizeLine (line : List Char) : List Char :=
  match matchBulleted line with
  | some t => '-' :: ' ' :: t
  | none =>
    match matchNumbered line with
    | some t => '1' :: '.' :: ' ' :: t
    | none => line

theorem extractPlainText_append (a b : List RichText) :
    extractPlainText (a ++ b) = extractPlainText a ++ extractPlainText b := by
  simp [extractPlainText]

theorem extractPlainText_flush (current : List Char) (b it cd st : Bool) (acc : List RichText) :
    extractPlainText (flush current b it cd st acc) = extractPlainText acc ++ current := by
  unfold flush
  split
  · simp_all [extractPlainText]
  · simp [extractPlainText_append, extractPlainText, createRichText]

theorem extractPlainText_one (rt : RichText) : extractPlainText [rt] = rt.content := by
  simp [extractPlainText]

theorem extract_parseLoopF (fuel : Nat) (s current : List Char) (b it cd st : Bool)
    (acc : List RichText) :
    extractPlainText (parseLoopF fuel s current b it cd st acc) =
      extractPlainText acc ++ current ++ stripMarkersF fuel s := by
  induction fuel, s, current, b, it, cd, st, acc using parseLoopF.induct <;>
    simp_all [parseLoopF, stripMarkersF, extractPlainText_flush, extractPlainText_append,
      extractPlainText_one, linkRichText, List.append_assoc]

theorem markerFree_parseLoopF (fuel : Nat) (s current : List Char) (b it cd st : Bool)
    (acc : List RichText) :
    s.length ≤ fuel → markerFreeB s = true →
    parseLoopF fuel s current b it cd st acc = flush (current ++ s) b it cd st acc := by
  induction fuel, s, current, b, it, cd, st, acc using parseLoopF.induct <;>
    intro hlen hmf <;>
    simp_all [parseLoopF, markerFreeB, Nat.succ_le_succ_iff, List.append_assoc]

theorem parseRichText_markerFree (s : List Char) (h : markerFreeB s = true) :
    parseRichText s = [createRichText s false false false false] := by
  unfold parseRichText
  rw [markerFree_parseLoopF s.length s [] false false false false [] (Nat.le_refl _) h]
  by_cases hs : s = [] <;> simp [flush, hs]

theorem richTextToMarkdown_plain (t : List Char) :
    richTextToMarkdown [createRichText t false false false false] = t := by
  simp [richTextToMarkdown, renderSpan, createRichText]

theorem renderSpan_eq_amended (rt : RichText) : renderSpan rt = renderSpanAmended rt := by
  obtain ⟨content, link, b, it, st, un, cd⟩ := rt
  cases b <;> cases it <;> cases st <;> cases cd <;> cases link <;>
    simp [renderSpan, renderSpanAmended, wrapIf, wrapLink]

/-- C1 (amended): span rendering uses a fixed, non-configurable
wrapping order, but with bold innermost, then italic, then code, then
strikethrough outermost among the annotations, and the link wrapper
outermost of all; a span with both bold and italic set renders with
the italic markers outside the bold markers. -/
theorem C1_render_order_amended (richText : List RichText) :
    richTextToMarkdown richText = (richText.map renderSpanAmended).flatten := by
  unfold richTextToMarkdown
  induction richText with
  | nil => rfl
  | cons rt rts ih => simp [ih, renderSpan_eq_amended]

/-- C1 counterexample: a span with bold and code set renders with the
backticks outside the double stars, while the claimed order (bold
outermost, then italic, then code, then strikethrough) would put the
double stars outside the backticks. -/
theorem C1_render_order_counterexample :
    richTextToMarkdown [⟨['x'], none, ⟨true, false, false, false, true⟩⟩] ≠
      ([(⟨['x'], none, ⟨true, false, false, false, true⟩⟩ : RichText)].map
        claimedRenderSpan).flatten := by
  decide

/-- C2 (amended): whenever the scan of parseRichText emits at least
one span, concatenating the span contents yields exactly the line with
the recognized markers stripped; when the scan emits none (the line is
empty or consists only of marker characters), the fallback span makes
the concatenation the whole original line, markers included. -/
theorem C2_plaintext_amended (line : List Char) :
    (parseLoopF line.length line [] false false false false [] ≠ [] →
      extractPlainText (parseRichText line) = stripMarkers line) ∧
    (parseLoopF line.length line [] false false false false [] = [] →
      extractPlainText (parseRichText line) = line) := by
  constructor
  · intro h
    have he := extract_parseLoopF line.length line [] false false false false []
    simp only [parseRichText, if_neg h]
    simpa [extractPlainText, stripMarkers] using he
  · intro h
    simp [parseRichText, h, extractPlainText_one, createRichText]

theorem C2_plaintext_witness :
    extractPlainText (parseRichText ['a', '*', '*', 'b']) = stripMarkers ['a', '*', '*', 'b'] ∧
    extractPlainText (parseRichText ['*', '*']) = ['*', '*'] :=
  ⟨(C2_plaintext_amended ['a', '*', '*', 'b']).1 (by decide),
   (C2_plaintext_amended ['*', '*']).2 (by decide)⟩

/-- C2 counterexample: on the line consisting of two stars the scan
emits no span, so parseRichText falls back to one span holding the two
stars, while the line with markers removed is empty. -/
theorem C2_plaintext_counterexample :
    extractPlainText (parseRichText ['*', '*']) ≠ stripMarkers ['*', '*'] := by
  decide

/-- C10: parseRichText never returns an empty span array; when the
scan emits no spans the result is the single fallback span whose
content is the whole original input with default annotations. -/
theorem C10_nonempty (s : List Char) :
    parseRichText s ≠ [] ∧
    (parseLoopF s.length s [] false false false false [] = [] →
      parseRichText s = [createRichText s false false false false]) := by
  by_cases h : parseLoopF s.length s [] false false false false [] = [] <;>
    simp [parseRichText, h]

theorem C10_nonempty_witness :
    parseRichText ['*', '*'] ≠ [] ∧
    parseRichText ['*', '*'] = [createRichText ['*', '*'] false false false false] :=
  ⟨(C10_nonempty ['*', '*']).1, (C10_nonempty ['*', '*']).2 (by decide)⟩

theorem findIdxq_of_decomp (p : Char → Bool) (pre : List Char) (a : Char) (post : List Char)
    (hpre : ∀ x ∈ pre, p x = false) (ha : p a = true) :
    List.findIdx? p (pre ++ a :: post) = some pre.length := by
  induction pre with
  | nil => simp [ha]
  | cons x xs ih =>
    have hx : p x = false := hpre x (List.mem_cons_self x xs)
    have ihh := ih fun y hy => hpre y (List.mem_cons_of_mem x hy)
    simp [List.findIdx?_cons, hx, List.findIdx?_succ, ihh]

theorem findIdxq_some_decomp (p : Char → Bool) (l : List Char) (j : Nat)
    (h : List.findIdx? p l = some j) :
    ∃ pre a post, l = pre ++ a :: post ∧ pre.length = j ∧ p a = true ∧
      ∀ x ∈ pre, p x = false := by
  induction l generalizing j with
  | nil => simp at h
  | cons x xs ih =>
    rw [List.findIdx?_cons] at h
    by_cases hx : p x
    · have hj : j = 0 := by
        simp [hx] at h
        omega
      subst hj
      exact ⟨[], x, xs, by simp, by simp, hx, by simp⟩
    · simp only [hx, Bool.false_eq_true, if_false, List.findIdx?_succ] at h
      obtain ⟨k, hk, hkj⟩ := Option.map_eq_some'.mp h
      obtain ⟨pre, a, post, rfl, hlen, ha, hpre⟩ := ih k hk
      refine ⟨x :: pre, a, post, by simp, by simp [hlen, hkj], ha, ?_⟩
      intro y hy
      rcases List.mem_cons.mp hy with rfl | hy
      · simpa using hx
      · exact hpre y hy

theorem linkSplit_of_decomp (lt url after : List Char)
    (hlt : ']' ∉ lt) (hurl : ')' ∉ url) :
    linkSplit (lt ++ (']' :: '(' :: (url ++ ')' :: after))) = some (lt, url, after) := by
  have hpre1 : ∀ x ∈ lt, (fun c => decide (c = ']')) x = false := by
    intro x hx
    simp only [decide_eq_false_iff_not]
    exact fun hxe => hlt (hxe ▸ hx)
  have h1 := findIdxq_of_decomp (fun c => decide (c = ']')) lt ']'
    ('(' :: (url ++ ')' :: after)) hpre1 (by decide)
  have hpre2 : ∀ x ∈ url, (fun c => decide (c = ')')) x = false := by
    intro x hx
    simp only [decide_eq_false_iff_not]
    exact fun hxe => hurl (hxe ▸ hx)
  have h2 := findIdxq_of_decomp (fun c => decide (c = ')')) url ')' after hpre2 (by decide)
  have hd1 : (lt ++ (']' :: '(' :: (url ++ ')' :: after))).drop (lt.length + 1) =
      '(' :: (url ++ ')' :: after) := by
    rw [List.drop_append]
    rfl
  have hd2 : (lt ++ (']' :: '(' :: (url ++ ')' :: after))).drop (lt.length + 2) =
      url ++ ')' :: after := by
    rw [List.drop_append]
    rfl
  have hd3 : (url ++ ')' :: after).drop (url.length + 1) = after := by
    rw [List.drop_append]
    rfl
  have ht1 : (lt ++ (']' :: '(' :: (url ++ ')' :: after))).take lt.length = lt :=
    List.take_left lt _
  have ht2 : (url ++ ')' :: after).take url.length = url := List.take_left url _
  unfold linkSplit
  rw [h1, Option.some_bind, hd1, hd2, h2, Option.some_bind, ht1, ht2, hd3,
    if_pos (show (('(' :: (url ++ ')' :: after)).head? = some '(') from rfl)]

theorem linkSplit_some_decomp (rest lt url rem : List Char)
    (h : linkSplit rest = some (lt, url, rem)) :
    rest = lt ++ (']' :: '(' :: (url ++ ')' :: rem)) ∧ ']' ∉ lt ∧ ')' ∉ url := by
  unfold linkSplit at h
  cases hj : rest.findIdx? (fun c => c = ']') with
  | none => rw [hj, Option.none_bind] at h; exact absurd h (by simp)
  | some j =>
    rw [hj, Option.some_bind] at h
    by_cases hhd : (rest.drop (j + 1)).head? = some '('
    · rw [if_pos hhd] at h
      cases hk : (rest.drop (j + 2)).findIdx? (fun c => c = ')') with
      | none => rw [hk, Option.none_bind] at h; exact absurd h (by simp)
      | some k =>
        rw [hk, Option.some_bind] at h
        obtain ⟨pre, a, post, hdec, hlen, ha, hpre⟩ := findIdxq_some_decomp _ rest j hj
        have ha' : a = ']' := by simpa using ha
        subst ha'
        subst hdec
        subst hlen
        have hdp : (pre ++ ']' :: post).drop (pre.length + 1) = post := by
          rw [List.drop_append]
          rfl
        rw [hdp] at hhd
        cases post with
        | nil => exact absurd hhd (by simp)
        | cons p0 post' =>
          have hp0 : p0 = '(' := by simpa using hhd
          subst hp0
          have hdp2 : (pre ++ ']' :: '(' :: post').drop (pre.length + 2) = post' := by
            rw [List.drop_append]
            rfl
          rw [hdp2] at hk h
          obtain ⟨pre2, a2, post2, hdec2, hlen2, ha2, hpre2⟩ :=
            findIdxq_some_decomp _ post' k hk
          have ha2' : a2 = ')' := by simpa using ha2
          subst ha2'
          subst hdec2
          subst hlen2
          rw [List.take_left] at h
          have htk : (pre2 ++ ')' :: post2).take pre2.length = pre2 := List.take_left pre2 _
          have hdr : (pre2 ++ ')' :: post2).drop (pre2.length + 1) = post2 := by
            rw [List.drop_append]
            rfl
          rw [htk, hdr] at h
          have h' := Option.some.inj h
          obtain ⟨rfl, rfl, rfl⟩ : pre = lt ∧ pre2 = url ∧ post2 = rem :=
            ⟨congrArg Prod.fst h', by simpa using congrArg (fun q => q.2.1) h',
              by simpa using congrArg (fun q => q.2.2) h'⟩
          refine ⟨by simp, ?_, ?_⟩
          · intro hmem
            have := hpre ']' hmem
            simp at this
          · intro hmem
            have := hpre2 ')' hmem
            simp at this
    · rw [if_neg hhd] at h
      exact absurd h (by simp)

/-- C5: at an open bracket the tokenizer looks for the first close
bracket, immediately followed by an open parenthesis and a later close
parenthesis; on success it flushes the pending buffer, emits one link
span whose content is the bracketed text, whose link is the url, and
whose annotations are the active flags, and resumes after the close
parenthesis; otherwise the open bracket is kept as a literal character
of the surrounding text. -/
theorem C5_link_tokenizer :
    (∀ (fuel : Nat) (lt url after current : List Char) (b it cd st : Bool)
      (acc : List RichText), ']' ∉ lt → ')' ∉ url →
      parseLoopF (fuel + 1) ('[' :: (lt ++ (']' :: '(' :: (url ++ ')' :: after))))
          current b it cd st acc =
        parseLoopF fuel after [] b it cd st
          (flush current b it cd st acc ++ [linkRichText lt url b it cd st])) ∧
    (∀ (fuel : Nat) (rest current : List Char) (b it cd st : Bool) (acc : List RichText),
      (¬ ∃ lt url after, rest = lt ++ (']' :: '(' :: (url ++ ')' :: after)) ∧
        ']' ∉ lt ∧ ')' ∉ url) →
      parseLoopF (fuel + 1) ('[' :: rest) current b it cd st acc =
        parseLoopF fuel rest (current ++ ['[']) b it cd st acc) := by
  constructor
  · intro fuel lt url after current b it cd st acc hlt hurl
    rw [show parseLoopF (fuel + 1) ('[' :: (lt ++ (']' :: '(' :: (url ++ ')' :: after))))
          current b it cd st acc =
        (match linkSplit (lt ++ (']' :: '(' :: (url ++ ')' :: after))) with
         | some (lt', url', rem) =>
           parseLoopF fuel rem [] b it cd st
             (flush current b it cd st acc ++ [linkRichText lt' url' b it cd st])
         | none =>
           parseLoopF fuel (lt ++ (']' :: '(' :: (url ++ ')' :: after)))
             (current ++ ['[']) b it cd st acc) from rfl]
    rw [linkSplit_of_decomp lt url after hlt hurl]
  · intro fuel rest current b it cd st acc hno
    have hnone : linkSplit rest = none := by
      cases hsp : linkSplit rest with
      | none => rfl
      | some v =>
        obtain ⟨lt, url, rem⟩ := v
        obtain ⟨hdec, hlt, hurl⟩ := linkSplit_some_decomp rest lt url rem hsp
        exact absurd ⟨lt, url, rem, hdec, hlt, hurl⟩ hno
    rw [show parseLoopF (fuel + 1) ('[' :: rest) current b it cd st acc =
        (match linkSplit rest with
         | some (lt', url', rem) =>
           parseLoopF fuel rem [] b it cd st
             (flush current b it cd st acc ++ [linkRichText lt' url' b it cd st])
         | none => parseLoopF fuel rest (current ++ ['[']) b it cd st acc) from rfl]
    rw [hnone]

theorem C5_link_tokenizer_witness :
    (parseLoopF 6 ('[' :: (['a'] ++ (']' :: '(' :: (['u'] ++ ')' :: ['x']))))
        ['z'] false false false false [] =
      parseLoopF 5 ['x'] [] false false false false
        (flush ['z'] false false false false [] ++
          [linkRichText ['a'] ['u'] false false false false])) ∧
    (parseLoopF 3 ('[' :: ['a', 'b']) ['z'] false false false false [] =
      parseLoopF 2 ['a', 'b'] (['z'] ++ ['[']) false false false false []) :=
  ⟨C5_link_tokenizer.1 5 ['a'] ['u'] ['x'] ['z'] false false false false [] (by decide)
      (by decide),
   C5_link_tokenizer.2 2 ['a', 'b'] ['z'] false false false false []
      (by
        rintro ⟨lt, url, after, heq, -, -⟩
        have hm : (']' : Char) ∈ ('a' :: 'b' :: []) := by
          rw [heq]
          simp
        simp at hm)⟩

theorem prefix_decomp {pre l : List Char} (h : List.isPrefixOf pre l = true) :
    ∃ t, l = pre ++ t := by
  induction pre generalizing l with
  | nil => exact ⟨l, rfl⟩
  | cons c cs ih =>
    cases l with
    | nil => simp [List.isPrefixOf] at h
    | cons d ds =>
      have h2 : (c == d && List.isPrefixOf cs ds) = true := h
      obtain ⟨hcd, hrest⟩ := (Bool.and_eq_true _ _).mp h2
      obtain ⟨t, rfl⟩ := ih hrest
      have hcd' : c = d := by simpa using hcd
      exact ⟨t, by rw [hcd']; rfl⟩

theorem isListItem_of_head (c : Char) (t : List Char)
    (h1 : (c = '-' || c = '*') = false) (h2 : c.isDigit = false) :
    isListItem (c :: t) = false := by
  cases t with
  | nil => simp [isListItem, matchBulleted, matchNumbered, List.takeWhile_cons, h2]
  | cons w r => simp [isListItem, matchBulleted, matchNumbered, List.takeWhile_cons, h1, h2]

theorem isListItem_of_blank (l : List Char) (hb : isBlank l = true) :
    isListItem l = false := by
  cases l with
  | nil => rfl
  | cons c t =>
    have hc : isSpaceChar c = true := by
      have hb2 := hb
      unfold isBlank at hb2
      rw [List.all_cons] at hb2
      exact ((Bool.and_eq_true _ _).mp hb2).1
    have h6 := by simpa [isSpaceChar] using hc
    rcases h6 with ((((rfl | rfl) | rfl) | rfl) | rfl) | rfl <;>
      exact isListItem_of_head _ t (by decide) (by decide)

theorem mdLoopF_eq_linesBlocksF (fuel : Nat) (lines : List (List Char)) :
    ∀ (cur : List Block) (ty : Option ListKind), (ty = none → cur = []) →
      mdLoopF fuel lines cur ty = cur ++ linesBlocksF fuel lines := by
  induction fuel, lines using linesBlocksF.induct with
  | case1 fuel =>
    intro cur ty hinv
    simp [mdLoopF, linesBlocksF]
  | case2 line rest =>
    intro cur ty hinv
    simp [mdLoopF, linesBlocksF]
  | case3 fuel line rest hb ih =>
    intro cur ty hinv
    have hli := isListItem_of_blank line hb
    cases ty with
    | none =>
      have hc := hinv rfl
      subst hc
      simp [mdLoopF, linesBlocksF, hb, hli, ih [] none (fun _ => rfl)]
    | some k =>
      simp [mdLoopF, linesBlocksF, hb, hli, ih [] none (fun _ => rfl)]
  | case4 fuel line rest hb h1 ih =>
    intro cur ty hinv
    obtain ⟨t, rfl⟩ := prefix_decomp h1
    have hli : isListItem (['#', ' '] ++ t) = false :=
      isListItem_of_head '#' (' ' :: t) (by decide) (by decide)
    simp only [List.cons_append, List.nil_append] at *
    cases ty with
    | none =>
      have hc := hinv rfl
      subst hc
      simp [mdLoopF, linesBlocksF, hb, h1, hli, ih [] none (fun _ => rfl)]
    | some k =>
      simp [mdLoopF, linesBlocksF, hb, h1, hli, ih [] none (fun _ => rfl)]
  | case5 fuel line rest hb h1 h2 ih =>
    intro cur ty hinv
    obtain ⟨t, rfl⟩ := prefix_decomp h2
    have hli : isListItem (['#', '#', ' '] ++ t) = false :=
      isListItem_of_head '#' ('#' :: ' ' :: t) (by decide) (by decide)
    simp only [List.cons_append, List.nil_append] at *
    cases ty with
    | none =>
      have hc := hinv rfl
      subst hc
      simp [mdLoopF, linesBlocksF, hb, h1, h2, hli, ih [] none (fun _ => rfl)]
    | some k =>
      simp [mdLoopF, linesBlocksF, hb, h1, h2, hli, ih [] none (fun _ => rfl)]
  | case6 fuel line rest hb h1 h2 h3 ih =>
    intro cur ty hinv
    obtain ⟨t, rfl⟩ := prefix_decomp h3
    have hli : isListItem (['#', '#', '#', ' '] ++ t) = false :=
      isListItem_of_head '#' ('#' :: '#' :: ' ' :: t) (by decide) (by decide)
    simp only [List.cons_append, List.nil_append] at *
    cases ty with
    | none =>
      have hc := hinv rfl
      subst hc
      simp [mdLoopF, linesBlocksF, hb, h1, h2, h3, hli, ih [] none (fun _ => rfl)]
    | some k =>
      simp [mdLoopF, linesBlocksF, hb, h1, h2, h3, hli, ih [] none (fun _ => rfl)]
  | case7 fuel line rest hb h1 h2 h3 hf ih =>
    intro cur ty hinv
    obtain ⟨t, rfl⟩ := prefix_decomp hf
    have hli : isListItem (fenceChars ++ t) = false :=
      isListItem_of_head backquote (backquote :: backquote :: t) (by decide) (by decide)
    simp only [List.cons_append, List.nil_append] at *
    cases ty with
    | none =>
      have hc := hinv rfl
      subst hc
      simp [mdLoopF, linesBlocksF, hb, h1, h2, h3, hf, hli]
      simpa [List.drop_one] using ih [] none (fun _ => rfl)
    | some k =>
      simp [mdLoopF, linesBlocksF, hb, h1, h2, h3, hf, hli]
      simpa [List.drop_one] using ih [] none (fun _ => rfl)
  | case8 fuel line rest hb h1 h2 h3 hf t hbul ih =>
    intro cur ty hinv
    have hli : isListItem line = true := by
      simp [isListItem, hbul]
    simp [mdLoopF, linesBlocksF, hb, h1, h2, h3, hf, hbul, hli,
      ih (cur ++ [createBulletedListItem t]) (some ListKind.bulleted) (by simp)]
  | case9 fuel line rest hb h1 h2 h3 hf hbul t hnum ih =>
    intro cur ty hinv
    have hli : isListItem line = true := by
      simp [isListItem, hnum]
    simp [mdLoopF, linesBlocksF, hb, h1, h2, h3, hf, hbul, hnum, hli,
      ih (cur ++ [createNumberedListItem t]) (some ListKind.numbered) (by simp)]
  | case10 fuel line rest hb h1 h2 h3 hf hbul hnum hq ih =>
    intro cur ty hinv
    have hli : isListItem line = false := by
      simp [isListItem, hbul, hnum]
    cases ty with
    | none =>
      have hc := hinv rfl
      subst hc
      simp [mdLoopF, linesBlocksF, hb, h1, h2, h3, hf, hbul, hnum, hq, hli,
        ih [] none (fun _ => rfl)]
    | some k =>
      simp [mdLoopF, linesBlocksF, hb, h1, h2, h3, hf, hbul, hnum, hq, hli,
        ih [] none (fun _ => rfl)]
  | case11 fuel line rest hb h1 h2 h3 hf hbul hnum hq hd ih =>
    intro cur ty hinv
    have hli : isListItem line = false := by
      simp [isListItem, hbul, hnum]
    cases ty with
    | none =>
      have hc := hinv rfl
      subst hc
      simp [mdLoopF, linesBlocksF, hb, h1, h2, h3, hf, hbul, hnum, hq, hd, hli,
        ih [] none (fun _ => rfl)]
    | some k =>
      simp [mdLoopF, linesBlocksF, hb, h1, h2, h3, hf, hbul, hnum, hq, hd, hli,
        ih [] none (fun _ => rfl)]
  | case12 fuel line rest hb h1 h2 h3 hf hbul hnum hq hd ih =>
    intro cur ty hinv
    have hli : isListItem line = false := by
      simp [isListItem, hbul, hnum]
    cases ty with
    | none =>
      have hc := hinv rfl
      subst hc
      simp [mdLoopF, linesBlocksF, hb, h1, h2, h3, hf, hbul, hnum, hq, hd, hli,
        ih [] none (fun _ => rfl)]
    | some k =>
      simp [mdLoopF, linesBlocksF, hb, h1, h2, h3, hf, hbul, hnum, hq, hd, hli,
        ih [] none (fun _ => rfl)]

theorem linesBlocksF_fuel (fuel : Nat) (lines : List (List Char)) :
    ∀ g, lines.length ≤ fuel → lines.length ≤ g →
      linesBlocksF fuel lines = linesBlocksF g lines := by
  induction fuel, lines using linesBlocksF.induct with
  | case1 fuel =>
    intro g hf hg
    cases g <;> simp [linesBlocksF]
  | case2 line rest =>
    intro g hf hg
    simp at hf
  | case3 fuel line rest hb ih =>
    intro g hf hg
    cases g with
    | zero => simp at hg
    | succ g' =>
      simp only [List.length_cons, Nat.succ_le_succ_iff] at hf hg
      simp [linesBlocksF, hb, ih g' hf hg]
  | case4 fuel line rest hb h1 ih =>
    intro g hf hg
    cases g with
    | zero => simp at hg
    | succ g' =>
      simp only [List.length_cons, Nat.succ_le_succ_iff] at hf hg
      simp [linesBlocksF, hb, h1, ih g' hf hg]
  | case5 fuel line rest hb h1 h2 ih =>
    intro g hf hg
    cases g with
    | zero => simp at hg
    | succ g' =>
      simp only [List.length_cons, Nat.succ_le_succ_iff] at hf hg
      simp [linesBlocksF, hb, h1, h2, ih g' hf hg]
  | case6 fuel line rest hb h1 h2 h3 ih =>
    intro g hf hg
    cases g with
    | zero => simp at hg
    | succ g' =>
      simp only [List.length_cons, Nat.succ_le_succ_iff] at hf hg
      simp [linesBlocksF, hb, h1, h2, h3, ih g' hf hg]
  | case7 fuel line rest hb h1 h2 h3 hfe ih =>
    intro g hf hg
    cases g with
    | zero => simp at hg
    | succ g' =>
      simp only [List.length_cons, Nat.succ_le_succ_iff] at hf hg
      have hdw : (rest.dropWhile (fun l => !(List.isPrefixOf fenceChars l))).length ≤
          rest.length := (List.dropWhile_sublist _).length_le
      have hlen : ((rest.dropWhile (fun l => !(List.isPrefixOf fenceChars l))).drop 1).length ≤
          rest.length := by
        rw [List.length_drop]
        omega
      have ihx := ih g' (Nat.le_trans hlen hf) (Nat.le_trans hlen hg)
      simp only [List.drop_one] at ihx
      simp [linesBlocksF, hb, h1, h2, h3, hfe, ihx]
  | case8 fuel line rest hb h1 h2 h3 hfe t hbul ih =>
    intro g hf hg
    cases g with
    | zero => simp at hg
    | succ g' =>
      simp only [List.length_cons, Nat.succ_le_succ_iff] at hf hg
      simp [linesBlocksF, hb, h1, h2, h3, hfe, hbul, ih g' hf hg]
  | case9 fuel line rest hb h1 h2 h3 hfe hbul t hnum ih =>
    intro g hf hg
    cases g with
    | zero => simp at hg
    | succ g' =>
      simp only [List.length_cons, Nat.succ_le_succ_iff] at hf hg
      simp [linesBlocksF, hb, h1, h2, h3, hfe, hbul, hnum, ih g' hf hg]
  | case10 fuel line rest hb h1 h2 h3 hfe hbul hnum hq ih =>
    intro g hf hg
    cases g with
    | zero => simp at hg
    | succ g' =>
      simp only [List.length_cons, Nat.succ_le_succ_iff] at hf hg
      simp [linesBlocksF, hb, h1, h2, h3, hfe, hbul, hnum, hq, ih g' hf hg]
  | case11 fuel line rest hb h1 h2 h3 hfe hbul hnum hq hd ih =>
    intro g hf hg
    cases g with
    | zero => simp at hg
    | succ g' =>
      simp only [List.length_cons, Nat.succ_le_succ_iff] at hf hg
      simp [linesBlocksF, hb, h1, h2, h3, hfe, hbul, hnum, hq, hd, ih g' hf hg]
  | case12 fuel line rest hb h1 h2 h3 hfe hbul hnum hq hd ih =>
    intro g hf hg
    cases g with
    | zero => simp at hg
    | succ g' =>
      simp only [List.length_cons, Nat.succ_le_succ_iff] at hf hg
      simp [linesBlocksF, hb, h1, h2, h3, hfe, hbul, hnum, hq, hd, ih g' hf hg]

theorem linesBlocksF_ge (fuel : Nat) (lines : List (List Char)) (h : lines.length ≤ fuel) :
    linesBlocksF fuel lines = linesToBlocks lines :=
  linesBlocksF_fuel fuel lines lines.length h (Nat.le_refl _)

theorem splitLines_noNewline (l : List Char) (h : '\n' ∉ l) : splitLines l = [l] := by
  induction l with
  | nil => rfl
  | cons c rest ih =>
    have hc : c ≠ '\n' := fun he => h (he ▸ List.mem_cons_self c rest)
    have hr : '\n' ∉ rest := fun hm => h (List.mem_cons_of_mem c hm)
    simp [splitLines, hc, ih hr]

theorem splitLines_append_newline (l m : List Char) (h : '\n' ∉ l) :
    splitLines (l ++ '\n' :: m) = l :: splitLines m := by
  induction l with
  | nil => simp [splitLines]
  | cons c rest ih =>
    have hc : c ≠ '\n' := fun he => h (he ▸ List.mem_cons_self c rest)
    have hr : '\n' ∉ rest := fun hm => h (List.mem_cons_of_mem c hm)
    simp [splitLines, hc, ih hr]

theorem splitLines_joinLines (lines : List (List Char)) (hne : lines ≠ [])
    (h : ∀ l ∈ lines, '\n' ∉ l) :
    splitLines (joinLines lines) = lines := by
  induction lines with
  | nil => exact absurd rfl hne
  | cons l rest ih =>
    cases rest with
    | nil => exact splitLines_noNewline l (h l (List.mem_cons_self l []))
    | cons l2 rest2 =>
      rw [show joinLines (l :: l2 :: rest2) = l ++ '\n' :: joinLines (l2 :: rest2) from rfl]
      rw [splitLines_append_newline l _ (h l (List.mem_cons_self _ _))]
      rw [ih (by simp) (fun x hx => h x (List.mem_cons_of_mem l hx))]

theorem markdownToBlocks_joinLines (lines : List (List Char))
    (h : ∀ l ∈ lines, '\n' ∉ l) :
    markdownToBlocks (joinLines lines) = linesToBlocks lines := by
  cases lines with
  | nil => rfl
  | cons l rest =>
    unfold markdownToBlocks
    rw [splitLines_joinLines (l :: rest) (by simp) h]
    rw [mdLoopF_eq_linesBlocksF _ _ [] none (fun _ => rfl)]
    rfl

theorem isPrefixOf_cons_false {d c : Char} {pre t : List Char} (h : c ≠ d) :
    List.isPrefixOf (d :: pre) (c :: t) = false := by
  have hd : (d == c) = false := by
    simp only [beq_eq_false_iff_ne, ne_eq]
    exact fun he => h he.symm
  simp [List.isPrefixOf, hd]

theorem isDigit_not_space {c : Char} (h : c.isDigit = true) : isSpaceChar c = false := by
  by_contra hs
  have hs' : isSpaceChar c = true := by simpa using hs
  have h6 := by simpa [isSpaceChar] using hs'
  rcases h6 with ((((rfl | rfl) | rfl) | rfl) | rfl) | rfl <;> exact absurd h (by decide)

theorem listItem_head_shape (c : Char) (t : List Char) (h : isListItem (c :: t) = true) :
    c = '-' ∨ c = '*' ∨ c.isDigit = true := by
  by_contra hno
  push_neg at hno
  obtain ⟨hm, hs, hd⟩ := hno
  have h1 : (c = '-' || c = '*') = false := by simp [hm, hs]
  have h2 : c.isDigit = false := by simpa using hd
  rw [isListItem_of_head c t h1 h2] at h
  exact absurd h (by simp)

theorem listItem_props (l : List Char) (h : isListItem l = true) :
    isBlank l = false ∧ List.isPrefixOf ['#', ' '] l = false ∧
    List.isPrefixOf ['#', '#', ' '] l = false ∧
    List.isPrefixOf ['#', '#', '#', ' '] l = false ∧
    List.isPrefixOf fenceChars l = false := by
  cases l with
  | nil => exact absurd h (by simp [isListItem, matchBulleted, matchNumbered])
  | cons c t =>
    have hd : c = '-' ∨ c = '*' ∨ c.isDigit = true := listItem_head_shape c t h
    have hsp : isSpaceChar c = false := by
      rcases hd with rfl | rfl | hdg
      · decide
      · decide
      · exact isDigit_not_space hdg
    have hhash : c ≠ '#' := by
      rcases hd with rfl | rfl | hdg
      · decide
      · decide
      · exact fun he => absurd (he ▸ hdg) (by decide)
    have hbq : c ≠ backquote := by
      rcases hd with rfl | rfl | hdg
      · decide
      · decide
      · exact fun he => absurd (he ▸ hdg) (by decide)
    refine ⟨?_, ?_, ?_, ?_, ?_⟩
    · simp [isBlank, hsp]
    · exact isPrefixOf_cons_false hhash
    · exact isPrefixOf_cons_false hhash
    · exact isPrefixOf_cons_false hhash
    · exact isPrefixOf_cons_false hbq

theorem linesToBlocks_nil : linesToBlocks [] = [] := rfl

theorem linesToBlocks_cons (l : List Char) (rest : List (List Char))
    (hf : List.isPrefixOf fenceChars l = false) :
    linesToBlocks (l :: rest) = lineOut l ++ linesToBlocks rest := by
  unfold linesToBlocks lineOut lineBlockOf
  simp only [List.length_cons]
  by_cases hb : isBlank l
  · simp [linesBlocksF, hb]
  · by_cases h1 : List.isPrefixOf ['#', ' '] l
    · simp [linesBlocksF, hb, h1]
    · by_cases h2 : List.isPrefixOf ['#', '#', ' '] l
      · simp [linesBlocksF, hb, h1, h2]
      · by_cases h3 : List.isPrefixOf ['#', '#', '#', ' '] l
        · simp [linesBlocksF, hb, h1, h2, h3]
        · cases hbul : matchBulleted l with
          | some t => simp [linesBlocksF, hb, h1, h2, h3, hf, hbul]
          | none =>
            cases hnum : matchNumbered l with
            | some t => simp [linesBlocksF, hb, h1, h2, h3, hf, hbul, hnum]
            | none =>
              by_cases hq : List.isPrefixOf ['>', ' '] l
              · simp [linesBlocksF, hb, h1, h2, h3, hf, hbul, hnum, hq]
              · by_cases hd : isDivider l
                · simp [linesBlocksF, hb, h1, h2, h3, hf, hbul, hnum, hq, hd]
                · simp [linesBlocksF, hb, h1, h2, h3, hf, hbul, hnum, hq, hd]

theorem linesToBlocks_append (pre xs : List (List Char))
    (hp : ∀ l ∈ pre, List.isPrefixOf fenceChars l = false) :
    linesToBlocks (pre ++ xs) = linesToBlocks pre ++ linesToBlocks xs := by
  induction pre with
  | nil => simp [linesToBlocks_nil]
  | cons l pre2 ih =>
    rw [List.cons_append, linesToBlocks_cons l _ (hp l (List.mem_cons_self _ _)),
      linesToBlocks_cons l _ (hp l (List.mem_cons_self _ _)),
      ih (fun x hx => hp x (List.mem_cons_of_mem l hx)), List.append_assoc]

theorem lineOut_listItem (l : List Char) (h : isListItem l = true) :
    lineOut l = [listItemBlock l] := by
  obtain ⟨hb, h1, h2, h3, hf⟩ := listItem_props l h
  unfold lineOut lineBlockOf listItemBlock
  cases hbul : matchBulleted l with
  | some t => simp [hb, h1, h2, h3, hbul]
  | none =>
    cases hnum : matchNumbered l with
    | some t => simp [hb, h1, h2, h3, hbul, hnum]
    | none => exact absurd h (by simp [isListItem, hbul, hnum])

theorem blank_not_fence (l : List Char) (hb : isBlank l = true) :
    List.isPrefixOf fenceChars l = false := by
  cases l with
  | nil => rfl
  | cons c t =>
    have hc : isSpaceChar c = true := by
      have hb2 := hb
      unfold isBlank at hb2
      rw [List.all_cons] at hb2
      exact ((Bool.and_eq_true _ _).mp hb2).1
    have h6 := by simpa [isSpaceChar] using hc
    rcases h6 with ((((rfl | rfl) | rfl) | rfl) | rfl) | rfl <;>
      exact isPrefixOf_cons_false (by decide)

theorem linesToBlocks_all_blank (lines : List (List Char))
    (h : ∀ l ∈ lines, isBlank l = true) : linesToBlocks lines = [] := by
  induction lines with
  | nil => rfl
  | cons l rest ih =>
    have hb := h l (List.mem_cons_self _ _)
    rw [linesToBlocks_cons l rest (blank_not_fence l hb)]
    simp [lineOut, hb, ih fun x hx => h x (List.mem_cons_of_mem l hx)]

/-- C9: the empty document yields no blocks, a document of blank lines
yields no blocks, and a blank line processed as a document line — at
any position whose earlier lines open no code fence, so in particular
right after a contiguous run of list items — never itself produces a
block: removing it leaves the block sequence unchanged (it at most
terminates the pending list run, which does not alter the emitted
blocks or their order). -/
theorem C9_blank_handling :
    markdownToBlocks [] = [] ∧
    (∀ lines : List (List Char), (∀ l ∈ lines, isBlank l = true ∧ '\n' ∉ l) →
      markdownToBlocks (joinLines lines) = []) ∧
    (∀ (pre : List (List Char)) (b : List Char) (post : List (List Char)),
      isBlank b = true → (∀ l ∈ pre, List.isPrefixOf fenceChars l = false) →
      (∀ l ∈ pre ++ b :: post, '\n' ∉ l) →
      markdownToBlocks (joinLines (pre ++ b :: post)) =
        markdownToBlocks (joinLines (pre ++ post))) := by
  refine ⟨rfl, ?_, ?_⟩
  · intro lines h
    rw [markdownToBlocks_joinLines lines (fun l hl => (h l hl).2)]
    exact linesToBlocks_all_blank lines (fun l hl => (h l hl).1)
  · intro pre b post hb hpre hnl
    rw [markdownToBlocks_joinLines _ hnl,
      markdownToBlocks_joinLines (pre ++ post) (by
        intro l hl
        refine hnl l ?_
        rcases List.mem_append.mp hl with hl | hl
        · exact List.mem_append.mpr (Or.inl hl)
        · exact List.mem_append.mpr (Or.inr (List.mem_cons_of_mem b hl))),
      linesToBlocks_append pre (b :: post) hpre,
      linesToBlocks_append pre post hpre,
      linesToBlocks_cons b post (blank_not_fence b hb)]
    simp [lineOut, hb]

theorem C9_blank_handling_witness :
    markdownToBlocks (joinLines [[' '], ['\t']]) = [] ∧
    markdownToBlocks (joinLines [['-', ' ', 'a'], [], ['-', ' ', 'b']]) =
      markdownToBlocks (joinLines [['-', ' ', 'a'], ['-', ' ', 'b']]) :=
  ⟨C9_blank_handling.2.1 [[' '], ['\t']] (by decide),
   C9_blank_handling.2.2 [['-', ' ', 'a']] [] [['-', ' ', 'b']]
     (by decide) (by decide) (by decide)⟩

/-- C7 (amended): a block of an unsupported type tag contributes no
output line and raises no error — removing it from the sequence leaves
the rendered document unchanged; and a sequence of two supported
single-line blocks around an unsupported one renders as exactly a
two-line document.  (Two arbitrary supported blocks need not give two
lines: a code block renders as three lines.) -/
theorem C7_unsupported_skipped :
    (∀ (bs1 bs2 : List Block) (tag : List Char),
      blocksToMarkdown (bs1 ++ Block.unsupported tag :: bs2) =
        blocksToMarkdown (bs1 ++ bs2)) ∧
    (∀ (b1 b2 : Block) (tag l1 l2 : List Char),
      blockLines b1 = [l1] → blockLines b2 = [l2] → '\n' ∉ l1 → '\n' ∉ l2 →
      (splitLines (blocksToMarkdown [b1, Block.unsupported tag, b2])).length = 2) := by
  constructor
  · intro bs1 bs2 tag
    simp [blocksToMarkdown, blockLines]
  · intro b1 b2 tag l1 l2 hb1 hb2 hn1 hn2
    have : blocksToMarkdown [b1, Block.unsupported tag, b2] = l1 ++ '\n' :: l2 := by
      unfold blocksToMarkdown
      simp only [List.map_cons, List.map_nil, List.flatten_cons, List.flatten_nil, hb1, hb2,
        show blockLines (Block.unsupported tag) = [] from rfl, List.nil_append,
        List.append_nil, List.cons_append, List.singleton_append]
      rfl
    rw [this, splitLines_append_newline l1 l2 hn1, splitLines_noNewline l2 hn2]
    rfl

theorem C7_unsupported_skipped_witness :
    (splitLines (blocksToMarkdown
      [Block.heading1 [createRichText ['h'] false false false false],
       Block.unsupported ['z'],
       Block.paragraph [createRichText ['y'] false false false false]])).length = 2 :=
  C7_unsupported_skipped.2 _ _ ['z'] (['#', ' ', 'h']) ['y']
    (by decide) (by decide) (by decide) (by decide)

/-- C7 counterexample: a code block is a supported block that renders
as three lines, so two supported blocks plus one unsupported block can
render as four lines, not two. -/
theorem C7_unsupported_counterexample :
    (splitLines (blocksToMarkdown
      [Block.code [createRichText ['x'] false false false false] ['j', 's'],
       Block.unsupported ['z'],
       Block.paragraph [createRichText ['y'] false false false false]])).length = 4 := by
  decide

theorem markerFree_head_not_bq (c : Char) (t : List Char) (h : markerFreeB (c :: t) = true) :
    c ≠ backquote := by
  intro he
  subst he
  rw [show markerFreeB (backquote :: t) = false by
    cases t with
    | nil => decide
    | cons d t2 =>
      by_cases hd : backquote = '~' ∧ d = '~'
      · exact absurd hd.1 (by decide)
      · simp [markerFreeB]] at h
  exact absurd h (by simp)

theorem markerFree_not_fence (l : List Char) (h : markerFreeB l = true) :
    List.isPrefixOf fenceChars l = false := by
  cases l with
  | nil => rfl
  | cons c t => exact isPrefixOf_cons_false (markerFree_head_not_bq c t h)

/-- C8 (amended): a single-line document that is not blank, has no
inline marker, and carries no heading, list, quote, fence or divider
prefix parses to exactly one paragraph block holding one span equal to
the whole line with default annotations, whose plain text is the
line. -/
theorem C8_plain_paragraph_amended (l : List Char) :
    markerFreeB l = true → isBlank l = false →
    List.isPrefixOf ['#', ' '] l = false → List.isPrefixOf ['#', '#', ' '] l = false →
    List.isPrefixOf ['#', '#', '#', ' '] l = false → isListItem l = false →
    List.isPrefixOf ['>', ' '] l = false → isDivider l = false → '\n' ∉ l →
    markdownToBlocks l = [Block.paragraph [createRichText l false false false false]] ∧
    extractPlainText [createRichText l false false false false] = l := by
  intro hmf hb h1 h2 h3 hli hq hd hnl
  constructor
  · have hj : markdownToBlocks l = markdownToBlocks (joinLines [l]) := rfl
    rw [hj, markdownToBlocks_joinLines [l] (by simpa using hnl)]
    rw [linesToBlocks_cons l [] (markerFree_not_fence l hmf), linesToBlocks_nil]
    have hbul : matchBulleted l = none := by
      cases hm : matchBulleted l with
      | none => rfl
      | some t =>
        have hit : isListItem l = true := by simp [isListItem, hm]
        rw [hit] at hli
        simp at hli
    have hnum : matchNumbered l = none := by
      cases hm : matchNumbered l with
      | none => rfl
      | some t =>
        have hit : isListItem l = true := by simp [isListItem, hm]
        rw [hit] at hli
        simp at hli
    simp [lineOut, lineBlockOf, hb, h1, h2, h3, hbul, hnum, hq, hd, createParagraph,
      parseRichText_markerFree l hmf]
  · simp [extractPlainText, createRichText]

theorem C8_plain_paragraph_witness :
    markdownToBlocks ['h', 'i'] =
      [Block.paragraph [createRichText ['h', 'i'] false false false false]] ∧
    extractPlainText [createRichText ['h', 'i'] false false false false] = ['h', 'i'] :=
  C8_plain_paragraph_amended ['h', 'i'] (by decide) (by decide) (by decide) (by decide)
    (by decide) (by decide) (by decide) (by decide) (by decide)

/-- C8 counterexample: the empty document is a single line containing
no recognized marker, yet it yields no block at all rather than one
paragraph block. -/
theorem C8_plain_paragraph_counterexample :
    markerFreeB [] = true ∧ markdownToBlocks [] = [] ∧
    markdownToBlocks [] ≠ [Block.paragraph [createRichText [] false false false false]] := by
  refine ⟨rfl, rfl, ?_⟩
  decide

/-- C4 (amended): a line opening with three backticks (met as a
document line, outside any open fence) produces one code block whose
raw text is the following lines up to but excluding the next fence
line — all remaining lines when no fence follows — joined with
newlines and held as a single untokenized default span, and whose
language is the trimmed trailing text of the fence line, with the
empty tag replaced by the literal "plain text"; processing resumes
after the closing fence line. -/
theorem C4_code_fence_amended (L : List Char) (rest : List (List Char)) :
    List.isPrefixOf fenceChars L = true → (∀ l ∈ L :: rest, '\n' ∉ l) →
    markdownToBlocks (joinLines (L :: rest)) =
      createCodeBlock
          (joinLines (rest.takeWhile (fun l => !(List.isPrefixOf fenceChars l))))
          (trimL (L.drop 3)) ::
        markdownToBlocks
          (joinLines ((rest.dropWhile (fun l => !(List.isPrefixOf fenceChars l))).drop 1)) := by
  intro hfe hnl
  have hsub : ((rest.dropWhile (fun l => !(List.isPrefixOf fenceChars l))).drop 1).Sublist
      rest := ((List.drop_sublist 1 _).trans (List.dropWhile_sublist _))
  rw [markdownToBlocks_joinLines (L :: rest) hnl,
    markdownToBlocks_joinLines _
      (fun l hl => hnl l (List.mem_cons_of_mem L (hsub.subset hl)))]
  obtain ⟨t, rfl⟩ := prefix_decomp hfe
  have hb : isBlank (fenceChars ++ t) = false := by
    simp [isBlank, isSpaceChar, fenceChars, backquote]
  have h1 : List.isPrefixOf ['#', ' '] (fenceChars ++ t) = false :=
    isPrefixOf_cons_false (by decide)
  have h2 : List.isPrefixOf ['#', '#', ' '] (fenceChars ++ t) = false :=
    isPrefixOf_cons_false (by decide)
  have h3 : List.isPrefixOf ['#', '#', '#', ' '] (fenceChars ++ t) = false :=
    isPrefixOf_cons_false (by decide)
  unfold linesToBlocks
  simp only [List.length_cons, linesBlocksF, hb, h1, h2, h3, hfe, Bool.false_eq_true,
    if_false, if_true]
  have hdws : (rest.dropWhile (fun l => !(List.isPrefixOf fenceChars l))).Sublist rest :=
    List.dropWhile_sublist _
  have hdw : ((rest.dropWhile (fun l => !(List.isPrefixOf fenceChars l))).drop 1).length ≤
      rest.length := by
    have := hdws.length_le
    rw [List.length_drop]
    omega
  rw [linesBlocksF_ge rest.length _ hdw]
  rfl

theorem C4_code_fence_witness :
    markdownToBlocks (joinLines [fenceChars ++ ['p', 'y'], ['x'], fenceChars, ['q']]) =
      createCodeBlock
          (joinLines ([fenceChars ++ ['p', 'y'], ['x'], fenceChars, ['q']].tail.takeWhile
            (fun l => !(List.isPrefixOf fenceChars l))))
          (trimL ((fenceChars ++ ['p', 'y']).drop 3)) ::
        markdownToBlocks
          (joinLines (([fenceChars ++ ['p', 'y'], ['x'], fenceChars, ['q']].tail.dropWhile
            (fun l => !(List.isPrefixOf fenceChars l))).drop 1)) :=
  C4_code_fence_amended (fenceChars ++ ['p', 'y']) [['x'], fenceChars, ['q']]
    (by decide) (by decide)

/-- C4 counterexample: a bare fence line has empty trailing text, but
the produced code block's language is the literal "plain text", not
the empty tag the claim states. -/
theorem C4_code_fence_counterexample :
    markdownToBlocks (joinLines [fenceChars, ['x']]) =
      [Block.code [createRichText ['x'] false false false false] "plain text".data] ∧
    markdownToBlocks (joinLines [fenceChars, ['x']]) ≠
      [Block.code [createRichText ['x'] false false false false] []] := by
  refine ⟨by decide, by decide⟩

theorem linesToBlocks_listItems (run : List (List Char))
    (h : ∀ l ∈ run, isListItem l = true) :
    linesToBlocks run = run.map listItemBlock := by
  induction run with
  | nil => rfl
  | cons l rest ih =>
    have hl := h l (List.mem_cons_self _ _)
    rw [linesToBlocks_cons l rest (listItem_props l hl).2.2.2.2,
      lineOut_listItem l hl, ih fun x hx => h x (List.mem_cons_of_mem l hx)]
    rfl

/-- C6 (amended): a contiguous run of list-pattern lines that is not
captured as the interior of a fenced code run (no earlier line opens a
fence) contributes exactly one list-item block per line, of the line's
own kind, in document order, after all blocks of the earlier lines and
before all blocks of the later lines; the runs of the two list kinds
may be mixed. -/
theorem C6_list_run_amended (pre run post : List (List Char)) :
    (∀ l ∈ pre, List.isPrefixOf fenceChars l = false) →
    (∀ l ∈ run, isListItem l = true) →
    (∀ l ∈ pre ++ run ++ post, '\n' ∉ l) →
    markdownToBlocks (joinLines (pre ++ run ++ post)) =
      markdownToBlocks (joinLines pre) ++ run.map listItemBlock ++
        markdownToBlocks (joinLines post) := by
  intro hpre hrun hnl
  have hrunf : ∀ l ∈ run, List.isPrefixOf fenceChars l = false :=
    fun l hl => (listItem_props l (hrun l hl)).2.2.2.2
  rw [markdownToBlocks_joinLines _ hnl,
    markdownToBlocks_joinLines pre
      (fun l hl => hnl l (by simp [hl])),
    markdownToBlocks_joinLines post
      (fun l hl => hnl l (by simp [hl])),
    List.append_assoc pre run post,
    linesToBlocks_append pre (run ++ post) hpre,
    linesToBlocks_append run post hrunf,
    linesToBlocks_listItems run hrun,
    List.append_assoc]

theorem C6_list_run_witness :
    markdownToBlocks (joinLines [['p'], ['-', ' ', 'a'], ['1', '.', ' ', 'b'], ['q']]) =
      markdownToBlocks (joinLines [['p']]) ++
        [['-', ' ', 'a'], ['1', '.', ' ', 'b']].map listItemBlock ++
        markdownToBlocks (joinLines [['q']]) :=
  C6_list_run_amended [['p']] [['-', ' ', 'a'], ['1', '.', ' ', 'b']] [['q']]
    (by decide) (by decide) (by decide)

/-- C6 counterexample: a list-pattern line inside an unterminated
fenced code run is consumed as code text, so the document made of a
fence line followed by a bulleted line yields no list-item block at
all, against the claimed one-block-per-line guarantee. -/
theorem C6_list_run_counterexample :
    markdownToBlocks (joinLines [fenceChars, ['-', ' ', 'a']]) =
      [Block.code [createRichText ['-', ' ', 'a'] false false false false]
        "plain text".data] ∧
    (markdownToBlocks (joinLines [fenceChars, ['-', ' ', 'a']])).countP
      (fun b => match b with
        | Block.bulletedListItem _ => true
        | Block.numberedListItem _ => true
        | _ => false) = 0 := by
  refine ⟨by decide, by decide⟩

/-- A heading line of the restricted round-trip document shape: one of
the three heading prefixes followed by marker-free text. -/
def isAllowedHeading (l : List Char) : Bool :=
  (List.isPrefixOf ['#', ' '] l && markerFreeB (l.drop 2)) ||
  (List.isPrefixOf ['#', '#', ' '] l && markerFreeB (l.drop 3)) ||
  (List.isPrefixOf ['#', '#', '#', ' '] l && markerFreeB (l.drop 4))

/-- A list-item line of the restricted shape: a bulleted or numbered
pattern whose item text is marker-free. -/
def isAllowedItem (l : List Char) : Bool :=
  match matchBulleted l with
  | some t => markerFreeB t
  | none =>
    match matchNumbered l with
    | some t => markerFreeB t
    | none => false

/-- A paragraph line of the restricted shape: non-blank, marker-free,
and carrying none of the line prefixes. -/
def isAllowedParagraph (l : List Char) : Bool :=
  markerFreeB l && !isBlank l && !(List.isPrefixOf ['#', ' '] l) &&
  !(List.isPrefixOf ['#', '#', ' '] l) && !(List.isPrefixOf ['#', '#', '#', ' '] l) &&
  !isListItem l && !(List.isPrefixOf ['>', ' '] l) && !isDivider l

/-- One line of the restricted round-trip document shape of claim C3:
newline-free and a heading, list item or plain paragraph line. -/
def allowedLine (l : List Char) : Bool :=
  decide ('\n' ∉ l) && (isAllowedHeading l || isAllowedItem l || isAllowedParagraph l)

theorem allowed_noNewline (l : List Char) (h : allowedLine l = true) : '\n' ∉ l := by
  unfold allowedLine at h
  exact of_decide_eq_true ((Bool.and_eq_true _ _).mp h).1

theorem matchNumbered_head (l t : List Char) (h : matchNumbered l = some t) :
    ∃ c t2, l = c :: t2 ∧ c.isDigit = true := by
  unfold matchNumbered at h
  cases l with
  | nil => simp at h
  | cons c t2 =>
    refine ⟨c, t2, rfl, ?_⟩
    by_contra hd
    have hd' : c.isDigit = false := by simpa using hd
    simp [List.takeWhile_cons, hd'] at h

theorem allowed_line_shape (l : List Char) (h : allowedLine l = true) :
    List.isPrefixOf fenceChars l = false ∧ isBlank l = false ∧
    blockLines (lineBlockOf l) = [normalizeLine l] := by
  unfold allowedLine at h
  have hdisj := ((Bool.and_eq_true _ _).mp h).2
  rcases (Bool.or_eq_true _ _).mp hdisj with hho | hpara
  · rcases (Bool.or_eq_true _ _).mp hho with hhead | hitem
    · unfold isAllowedHeading at hhead
      rcases (Bool.or_eq_true _ _).mp hhead with hh12 | hh3
      · rcases (Bool.or_eq_true _ _).mp hh12 with hh1 | hh2
        · obtain ⟨hp, hmf⟩ := (Bool.and_eq_true _ _).mp hh1
          obtain ⟨t, rfl⟩ := prefix_decomp hp
          simp only [List.cons_append, List.nil_append] at *
          simp only [List.drop_succ_cons, List.drop_zero] at hmf
          refine ⟨isPrefixOf_cons_false (by decide), by simp [isBlank, isSpaceChar], ?_⟩
          have hbul : matchBulleted ('#' :: ' ' :: t) = none := by
            simp [matchBulleted]
          have hnum : matchNumbered ('#' :: ' ' :: t) = none := by
            simp [matchNumbered, List.takeWhile_cons]
          simp [lineBlockOf, List.isPrefixOf, createHeading1,
            parseRichText_markerFree t hmf, blockLines, richTextToMarkdown_plain,
            normalizeLine, hbul, hnum]
        · obtain ⟨hp, hmf⟩ := (Bool.and_eq_true _ _).mp hh2
          obtain ⟨t, rfl⟩ := prefix_decomp hp
          simp only [List.cons_append, List.nil_append] at *
          simp only [List.drop_succ_cons, List.drop_zero] at hmf
          refine ⟨isPrefixOf_cons_false (by decide), by simp [isBlank, isSpaceChar], ?_⟩
          have hbul : matchBulleted ('#' :: '#' :: ' ' :: t) = none := by
            simp [matchBulleted]
          have hnum : matchNumbered ('#' :: '#' :: ' ' :: t) = none := by
            simp [matchNumbered, List.takeWhile_cons]
          simp [lineBlockOf, List.isPrefixOf, createHeading2,
            parseRichText_markerFree t hmf, blockLines, richTextToMarkdown_plain,
            normalizeLine, hbul, hnum]
      · obtain ⟨hp, hmf⟩ := (Bool.and_eq_true _ _).mp hh3
        obtain ⟨t, rfl⟩ := prefix_decomp hp
        simp only [List.cons_append, List.nil_append] at *
        simp only [List.drop_succ_cons, List.drop_zero] at hmf
        refine ⟨isPrefixOf_cons_false (by decide), by simp [isBlank, isSpaceChar], ?_⟩
        have hbul : matchBulleted ('#' :: '#' :: '#' :: ' ' :: t) = none := by
          simp [matchBulleted]
        have hnum : matchNumbered ('#' :: '#' :: '#' :: ' ' :: t) = none := by
          simp [matchNumbered, List.takeWhile_cons]
        simp [lineBlockOf, List.isPrefixOf, createHeading3,
          parseRichText_markerFree t hmf, blockLines, richTextToMarkdown_plain,
          normalizeLine, hbul, hnum]
    · unfold isAllowedItem at hitem
      cases hbul : matchBulleted l with
      | some t =>
        rw [hbul] at hitem
        have hli : isListItem l = true := by simp [isListItem, hbul]
        obtain ⟨hbk, h1, h2, h3, hf⟩ := listItem_props l hli
        refine ⟨hf, hbk, ?_⟩
        obtain ⟨c, w, t2, rfl, hcw⟩ : ∃ c w t2, l = c :: w :: t2 ∧ t = t2 := by
          unfold matchBulleted at hbul
          cases l with
          | nil => simp at hbul
          | cons c rest =>
            cases rest with
            | nil => simp at hbul
            | cons w t2 =>
              refine ⟨c, w, t2, rfl, ?_⟩
              by_cases hc : (c = '-' || c = '*') && isSpaceChar w
              · have hst : some t2 = some t := by simpa [matchBulleted, hc] using hbul
                exact (Option.some.inj hst).symm
              · simp [matchBulleted, hc] at hbul
        subst hcw
        simp [lineBlockOf, h1, h2, h3, hbul, createBulletedListItem,
          parseRichText_markerFree _ hitem, blockLines, richTextToMarkdown_plain,
          normalizeLine]
      | none =>
        rw [hbul] at hitem
        cases hnum : matchNumbered l with
        | some t =>
          rw [hnum] at hitem
          have hli : isListItem l = true := by simp [isListItem, hnum]
          obtain ⟨hbk, h1, h2, h3, hf⟩ := listItem_props l hli
          refine ⟨hf, hbk, ?_⟩
          simp [lineBlockOf, h1, h2, h3, hbul, hnum, createNumberedListItem,
            parseRichText_markerFree _ hitem, blockLines, richTextToMarkdown_plain,
            normalizeLine]
        | none =>
          rw [hnum] at hitem
          simp at hitem
  · unfold isAllowedParagraph at hpara
    simp only [Bool.and_eq_true, Bool.not_eq_true'] at hpara
    obtain ⟨⟨⟨⟨⟨⟨⟨hmf, hbk⟩, h1⟩, h2⟩, h3⟩, hli⟩, hq⟩, hd⟩ := hpara
    have hbul : matchBulleted l = none := by
      cases hm : matchBulleted l with
      | none => rfl
      | some t =>
        have hit : isListItem l = true := by simp [isListItem, hm]
        rw [hit] at hli
        simp at hli
    have hnum : matchNumbered l = none := by
      cases hm : matchNumbered l with
      | none => rfl
      | some t =>
        have hit : isListItem l = true := by simp [isListItem, hm]
        rw [hit] at hli
        simp at hli
    refine ⟨markerFree_not_fence l hmf, hbk, ?_⟩
    simp [lineBlockOf, h1, h2, h3, hbul, hnum, hq, hd, createParagraph,
      parseRichText_markerFree l hmf, blockLines, richTextToMarkdown_plain,
      normalizeLine]

theorem linesToBlocks_allowed (lines : List (List Char))
    (h : ∀ l ∈ lines, allowedLine l = true) :
    linesToBlocks lines = lines.map lineBlockOf := by
  induction lines with
  | nil => rfl
  | cons l rest ih =>
    obtain ⟨hf, hbk, -⟩ := allowed_line_shape l (h l (List.mem_cons_self _ _))
    rw [linesToBlocks_cons l rest hf, ih fun x hx => h x (List.mem_cons_of_mem l hx)]
    simp [lineOut, hbk]

theorem flatten_normalize (lines : List (List Char))
    (h : ∀ l ∈ lines, allowedLine l = true) :
    (List.map blockLines (lines.map lineBlockOf)).flatten = lines.map normalizeLine := by
  induction lines with
  | nil => rfl
  | cons l rest ih =>
    have h3 := (allowed_line_shape l (h l (List.mem_cons_self _ _))).2.2
    simp only [List.map_cons, List.flatten_cons, h3]
    rw [ih fun x hx => h x (List.mem_cons_of_mem l hx)]
    rfl

/-- C3 (amended): a round trip through markdownToBlocks and
blocksToMarkdown on a document of marker-free headings, marker-free
non-blank plain paragraphs and one contiguous single-style list of
marker-free items reproduces every heading and paragraph line exactly,
and normalizes every list line to the literal rendered prefix: every
numbered line to "1. " regardless of its ordinal, and every bulleted
line to "- " regardless of whether it was written with a dash or a
star and of which whitespace followed the bullet. -/
theorem C3_roundtrip_amended (lines : List (List Char)) :
    (∀ l ∈ lines, allowedLine l = true) →
    (∃ pre mid post, lines = pre ++ mid ++ post ∧
      (∀ l ∈ pre, isListItem l = false) ∧ (∀ l ∈ post, isListItem l = false) ∧
      ((∀ l ∈ mid, (matchBulleted l).isSome = true) ∨
        (∀ l ∈ mid, (matchNumbered l).isSome = true))) →
    blocksToMarkdown (markdownToBlocks (joinLines lines)) =
      joinLines (lines.map normalizeLine) := by
  intro hall hshape
  rw [markdownToBlocks_joinLines lines (fun l hl => allowed_noNewline l (hall l hl)),
    linesToBlocks_allowed lines hall]
  unfold blocksToMarkdown
  rw [flatten_normalize lines hall]

theorem C3_roundtrip_witness :
    blocksToMarkdown (markdownToBlocks (joinLines
      [['#', ' ', 'T'], ['-', ' ', 'a'], ['*', ' ', 'b'], ['p']])) =
      joinLines ([['#', ' ', 'T'], ['-', ' ', 'a'], ['*', ' ', 'b'], ['p']].map
        normalizeLine) :=
  C3_roundtrip_amended [['#', ' ', 'T'], ['-', ' ', 'a'], ['*', ' ', 'b'], ['p']]
    (by decide)
    ⟨[['#', ' ', 'T']], [['-', ' ', 'a'], ['*', ' ', 'b']], [['p']], by decide,
      by decide, by decide, Or.inl (by decide)⟩

/-- C3 counterexample: a one-line all-bulleted list written with a
star bullet is in the claimed document shape, but the round trip
renders it with a dash bullet, so the original bullet marker is not
reproduced. -/
theorem C3_roundtrip_counterexample :
    blocksToMarkdown (markdownToBlocks (joinLines [['*', ' ', 'a']])) = ['-', ' ', 'a'] ∧
    blocksToMarkdown (markdownToBlocks (joinLines [['*', ' ', 'a']])) ≠ ['*', ' ', 'a'] := by
  refine ⟨by decide, by decide⟩
